import Mathlib

/-!
Verification of the time-ordered multi-stream sample aggregator implemented in
src/SampleReader.hpp (namespace aggregator, class SampleReader).

Shallow embedding conventions:
  - base::Time is modelled as Int (signed microsecond count); Time() is 0 and
    base::Time::isNull() is equality with 0.
  - Stream payloads are type-erased in the source (Stream<T> behind StreamBase).
    We model the payload universe as Int and give every stream a numeric type
    tag `ty`; a push carries the tag of its template parameter T, and the
    dynamic_cast in SampleReader::push succeeds exactly when the tags agree.
  - Callbacks are not stored: a call to a delivery callback is recorded as an
    Emit event returned by the operation, and executions accumulate the list of
    emitted events (the global callback trace).
  - SampleReader::push has four abnormal outcomes in the source, modelled by
    PushOutcome: the thrown std::runtime_error for idx < 0 (the only failure a
    caller can catch), the silent return for stale samples, the failed
    assert(stream) after a null dynamic_cast (process abort), and the
    out-of-bounds vector access streams[idx] for idx >= streams.size()
    (undefined behaviour; no further state is modelled past it).
  - std::sort guarantees only a permutation that is sorted for the strict
    comparator StreamIndex::operator< (comparing the time fields); it is not
    stable. SampleReader::step is therefore parameterised by the sort function,
    and theorems quantify over every function satisfying SortSpec, the contract
    std::sort provides.
-/

namespace Aggregator

abbrev Time := Int

/-- Model of SampleReader::Stream<T>: a FIFO of (timestamp, value) samples with
a capacity, an expected period, the time of the last accepted push, and the
overdue flag inherited from StreamBase. `ty` is the tag standing for the
template parameter T. -/
structure Stream where
  ty : Nat
  buffer : List (Time × Int)
  bufferSize : Nat
  period : Time
  lastTime : Time
  overdue : Bool
deriving DecidableEq, Repr

/-- Model of the eviction loop in Stream::push:
while( bufferSize > 0 && buffer.size() >= bufferSize ) buffer.pop(); -/
def evict (bufferSize : Nat) : List (Time × Int) → List (Time × Int)
  | [] => []
  | p :: rest =>
    if 0 < bufferSize ∧ bufferSize ≤ (p :: rest).length then evict bufferSize rest
    else p :: rest

/-- Stream::push: drop non-monotonic samples, update lastTime, evict if full,
append the new sample at the back of the FIFO. -/
def Stream.push (s : Stream) (ts : Time) (v : Int) : Stream :=
  if ts < s.lastTime then s
  else { s with lastTime := ts, buffer := evict s.bufferSize s.buffer ++ [(ts, v)] }

/-- Stream::hasData. -/
def Stream.hasData (s : Stream) : Bool := !s.buffer.isEmpty

/-- Stream::nextTimeStamp: front timestamp when data is buffered, otherwise
lastTime + period. -/
def Stream.nextTimeStamp (s : Stream) : Time :=
  match s.buffer with
  | [] => s.lastTime + s.period
  | p :: _ => p.1

/-- Stream::pop(late): remove the front sample when there is one; when late is
false, clear overdue and invoke the callback with the front sample (the second
component reports that callback invocation). -/
def Stream.pop (s : Stream) (late : Bool) : Stream × Option (Time × Int) :=
  match s.buffer with
  | [] => (s, none)
  | f :: rest =>
    if late then ({ s with buffer := rest }, none)
    else ({ s with buffer := rest, overdue := false }, some f)

/-- Stream::getBufferStatus. -/
def Stream.getBufferStatus (s : Stream) : Nat × Nat := (s.buffer.length, s.bufferSize)

/-- Model of SampleReader::StreamIndex; the StreamBase pointer is replaced by
the position of the stream in the streams vector. -/
structure StreamIndex where
  time : Time
  hasData : Bool
  idx : Nat
deriving DecidableEq, Repr

/-- The comparison StreamIndex::operator< sorts by the time field only; a
std::sort result is only guaranteed to be non-descending for it. -/
def timeLE (a b : StreamIndex) : Prop := a.time ≤ b.time

instance : DecidableRel timeLE := fun a b => inferInstanceAs (Decidable (a.time ≤ b.time))

instance : IsTotal StreamIndex timeLE := ⟨fun a b => Int.le_total a.time b.time⟩

instance : IsTrans StreamIndex timeLE := ⟨fun _ _ _ => Int.le_trans⟩

/-- Contract of std::sort with StreamIndex::operator<: the result is a
permutation of the input that is pairwise non-descending in the time field.
Tie order is unspecified, so step is parameterised over any such function. -/
def SortSpec (sortf : List StreamIndex → List StreamIndex) : Prop :=
  ∀ l, List.Perm (sortf l) l ∧ List.Pairwise timeLE (sortf l)

/-- Result classification of SampleReader::push (see the header comment). -/
inductive PushOutcome where
  | ok
  | staleDrop
  | invalidIndexError
  | typeAssertFail
  | outOfBounds
deriving DecidableEq, Repr

/-- Whether a push outcome is an error the caller can observe and handle: in
the source only the std::runtime_error thrown for idx < 0 is; the stale drop
is a silent return, the failed assert aborts the process, and the
out-of-bounds access is undefined behaviour. -/
def PushOutcome.surfacedError : PushOutcome → Bool
  | .invalidIndexError => true
  | _ => false

/-- Model of the SampleReader aggregator state. -/
structure SampleReader where
  streams : List Stream
  timeout : Time
  latest_ts : Time
  current_ts : Time
deriving DecidableEq, Repr

/-- SampleReader constructor: no streams, given timeout, null times. -/
def SampleReader.init (timeout : Time) : SampleReader :=
  SampleReader.mk [] timeout 0 0

/-- SampleReader::registerStream<T>: append a fresh stream, return its index
(the size before the push_back). -/
def SampleReader.registerStream (r : SampleReader) (ty : Nat) (bufferSize : Nat)
    (period : Time) : SampleReader × Nat :=
  ({ r with streams := r.streams ++ [Stream.mk ty [] bufferSize period 0 false] },
   r.streams.length)

/-- SampleReader::setTimeout. -/
def SampleReader.setTimeout (r : SampleReader) (t : Time) : SampleReader :=
  { r with timeout := t }

/-- SampleReader::push<T>(idx, ts, data), with the checks in source order:
throw for idx < 0; silent return when ts + timeout < latest_ts; update
latest_ts when ts > latest_ts; then access streams[idx] (out of bounds when
idx >= streams.size()) and dynamic_cast it to Stream<T> (assert fails on a
type tag mismatch); finally forward to Stream::push. The latest_ts update
(the statement "if( ts > latest_ts ) latest_ts = ts;") is split into
pushLatest, executed before the vector access and the cast. -/
def SampleReader.pushLatest (r : SampleReader) (ts : Time) : SampleReader :=
  if r.latest_ts < ts then { r with latest_ts := ts } else r

def SampleReader.push (r : SampleReader) (idx : Int) (ty : Nat) (ts : Time) (v : Int) :
    SampleReader × PushOutcome :=
  if idx < 0 then (r, PushOutcome.invalidIndexError)
  else if ts + r.timeout < r.latest_ts then (r, PushOutcome.staleDrop)
  else
    match (r.pushLatest ts).streams[idx.toNat]? with
    | none => (r.pushLatest ts, PushOutcome.outOfBounds)
    | some s =>
      if s.ty = ty then
        ({ r.pushLatest ts with
            streams := (r.pushLatest ts).streams.set idx.toNat (s.push ts v) },
         PushOutcome.ok)
      else (r.pushLatest ts, PushOutcome.typeAssertFail)

/-- Model of the per-stream do-while loop at the top of SampleReader::step,
acting on the raw buffer: while the front sample is late (ts < current_ts) it
is popped with pop(late=true); on exit a candidate (nextTimeStamp, hasData) is
recorded if the stream has data or its next expected time is not null.
`lastPlusPeriod` is lastTime + period, the value nextTimeStamp returns for an
empty buffer. -/
def sweepBuf (c lastPlusPeriod : Time) : List (Time × Int) → List (Time × Int) × Option (Time × Bool)
  | [] => ([], if lastPlusPeriod ≠ 0 then some (lastPlusPeriod, false) else none)
  | p :: rest =>
    if p.1 < c then sweepBuf c lastPlusPeriod rest
    else (p :: rest, some (p.1, true))

/-- The sweep loop lifted to a stream. -/
def Stream.sweep (s : Stream) (c : Time) : Stream × Option (Time × Bool) :=
  ({ s with buffer := (sweepBuf c (s.lastTime + s.period) s.buffer).1 },
   (sweepBuf c (s.lastTime + s.period) s.buffer).2)

/-- The candidate-collection loop of SampleReader::step: sweep every stream in
registration order (index i onward) and gather the StreamIndex entries. -/
def buildItems (c : Time) : List Stream → Nat → List Stream × List StreamIndex
  | [], _ => ([], [])
  | s :: rest, i =>
    ((s.sweep c).1 :: (buildItems c rest (i + 1)).1,
     (match (s.sweep c).2 with
      | some td => [StreamIndex.mk td.1 td.2 i]
      | none => []) ++ (buildItems c rest (i + 1)).2)

/-- Call pop(late) on the stream at position i of the vector (in the source
the scan holds a StreamBase pointer; positions are always in range there). -/
def popAt (streams : List Stream) (i : Nat) (late : Bool) :
    List Stream × Option (Time × Int) :=
  match streams[i]? with
  | some s => ((streams.set i (s.pop late).1), (s.pop late).2)
  | none => (streams, none)

/-- Set the overdue flag of the stream at position i. -/
def markOverdue (streams : List Stream) (i : Nat) : List Stream :=
  match streams[i]? with
  | some s => streams.set i { s with overdue := true }
  | none => streams

/-- A delivery callback invocation: stream index, timestamp, value. -/
structure Emit where
  idx : Nat
  ts : Time
  val : Int
deriving DecidableEq, Repr

/-- The scan over the sorted candidate list in SampleReader::step: emit the
first candidate holding data (pop(false), set current_ts, return true); stop
without emitting when an expected sample is still inside the timeout window;
otherwise mark the stream overdue and continue. -/
def scan (r : SampleReader) : List StreamIndex → SampleReader × Option Emit × Bool
  | [] => (r, none, false)
  | it :: rest =>
    if it.hasData then
      ({ r with streams := (popAt r.streams it.idx false).1, current_ts := it.time },
       ((popAt r.streams it.idx false).2).map (fun p => Emit.mk it.idx p.1 p.2),
       true)
    else if r.latest_ts < it.time + r.timeout then (r, none, false)
    else scan { r with streams := markOverdue r.streams it.idx } rest

/-- SampleReader::step, parameterised by the sort function modelling
std::sort (any function satisfying SortSpec). Returns the new state, the
callback invocation performed (if any) and the boolean result of step. -/
def SampleReader.step (sortf : List StreamIndex → List StreamIndex) (r : SampleReader) :
    SampleReader × Option Emit × Bool :=
  if r.streams.isEmpty then (r, none, false)
  else if (buildItems r.current_ts r.streams 0).2.isEmpty
      || !((buildItems r.current_ts r.streams 0).2.any (fun it => it.hasData)) then
    ({ r with streams := (buildItems r.current_ts r.streams 0).1 }, none, false)
  else
    scan { r with streams := (buildItems r.current_ts r.streams 0).1 }
      (sortf (buildItems r.current_ts r.streams 0).2)

/-- SampleReader::getLatency. -/
def SampleReader.getLatency (r : SampleReader) : Time := r.latest_ts - r.current_ts

/-- SampleReader::getCurrentTime. -/
def SampleReader.getCurrentTime (r : SampleReader) : Time := r.current_ts

/-- SampleReader::getLatestTime. -/
def SampleReader.getLatestTime (r : SampleReader) : Time := r.latest_ts

/-- The operations a client can perform on one aggregator. -/
inductive Op where
  | push (idx : Int) (ty : Nat) (ts : Time) (v : Int)
  | step
  | register (ty : Nat) (bufferSize : Nat) (period : Time)
  | setTimeout (t : Time)
deriving DecidableEq, Repr

/-- Outcomes after which the program cannot continue: the failed assert aborts
the process and the out-of-bounds access is undefined behaviour. The thrown
invalid-index error is catchable and leaves the state untouched, so execution
may continue past it. -/
def PushOutcome.fatal : PushOutcome → Bool
  | .typeAssertFail => true
  | .outOfBounds => true
  | _ => false

/-- Run a sequence of operations, accumulating the global callback trace.
Execution stops at a fatal push outcome. -/
def runOps (sortf : List StreamIndex → List StreamIndex) (r : SampleReader) :
    List Op → SampleReader × List Emit
  | [] => (r, [])
  | Op.push i ty ts v :: rest =>
    if ((r.push i ty ts v).2).fatal then ((r.push i ty ts v).1, [])
    else runOps sortf (r.push i ty ts v).1 rest
  | Op.step :: rest =>
    ((runOps sortf (SampleReader.step sortf r).1 rest).1,
     ((SampleReader.step sortf r).2.1).toList ++ (runOps sortf (SampleReader.step sortf r).1 rest).2)
  | Op.register ty b p :: rest => runOps sortf (r.registerStream ty b p).1 rest
  | Op.setTimeout t :: rest => runOps sortf (r.setTimeout t) rest

/-- Iterate step k times from a state, collecting the callback trace. -/
def stepsTrace (sortf : List StreamIndex → List StreamIndex) (r : SampleReader) :
    Nat → List Emit
  | 0 => []
  | k + 1 =>
    ((SampleReader.step sortf r).2.1).toList ++
      stepsTrace sortf (SampleReader.step sortf r).1 k

/-- A concrete sort function satisfying SortSpec: stable insertion sort on the
time field. Used to instantiate the sort parameter in witnesses. -/
def timeSort (l : List StreamIndex) : List StreamIndex := List.insertionSort timeLE l

/-- Another function satisfying SortSpec: insertion sort of the reversed list.
It reverses the relative order of candidates with equal time fields, which a
conforming std::sort implementation is free to do. -/
def timeSortRev (l : List StreamIndex) : List StreamIndex :=
  List.insertionSort timeLE l.reverse

/-- A reachable example state: timeout 2 and one registered stream of type
tag 0 (capacity 10, aperiodic), nothing pushed yet. -/
def oneStreamReader : SampleReader :=
  ((SampleReader.init 2).registerStream 0 10 0).1

/-- A reachable example state: timeout 2, one stream of type tag 0, after a
sample at time 10 was accepted (latest_ts = 10). -/
def exampleReader : SampleReader :=
  (oneStreamReader.push 0 0 10 1).1

/-- A reachable example state: timeout 2 and two streams of type tag 0, each
holding one buffered sample with the same timestamp 5. -/
def twoStreamTie : SampleReader :=
  ((((oneStreamReader.registerStream 0 10 0).1.push 0 0 5 100).1).push 1 0 5 200).1

/-- A concrete stream with a full buffer (two samples, capacity two). -/
def exampleStream : Stream :=
  Stream.mk 0 [(1, 10), (2, 20)] 2 0 2 false

/-- Ordering of buffered samples by timestamp. -/
def tsLE (a b : Time × Int) : Prop := a.1 ≤ b.1

instance : DecidableRel tsLE := fun a b => inferInstanceAs (Decidable (a.1 ≤ b.1))

instance : IsTrans (Time × Int) tsLE := ⟨fun _ _ _ => Int.le_trans⟩

/-- Every buffered sample timestamp is at most L. -/
def BufBound (L : Time) (ss : List Stream) : Prop :=
  ∀ s ∈ ss, ∀ p ∈ s.buffer, p.1 ≤ L

/-- The candidate entries produced by the sweep are consistent with the stream
vector: a candidate with data points at a stream whose front sample carries
the candidate time, and that time is not earlier than current_ts (c). -/
def GoodItems (c : Time) (ss : List Stream) (items : List StreamIndex) : Prop :=
  ∀ it ∈ items, it.hasData = true →
    ∃ s v rest, ss[it.idx]? = some s ∧ s.buffer = (it.time, v) :: rest ∧ c ≤ it.time

/-- The aggregator state invariant: the emission clock never passes the
ingress clock, and no buffered sample is newer than the ingress clock. -/
def Inv (r : SampleReader) : Prop :=
  r.current_ts ≤ r.latest_ts ∧ BufBound r.latest_ts r.streams

/- ------------------------------------------------------------------ -/
/- Lemmas about Stream operations                                      -/
/- ------------------------------------------------------------------ -/

theorem evict_mem {b : Nat} : ∀ {l : List (Time × Int)} {p : Time × Int},
    p ∈ evict b l → p ∈ l
  | [], p, h => by simp [evict] at h
  | q :: rest, p, h => by
    rw [evict] at h
    split at h
    case isTrue => exact List.mem_cons_of_mem q (evict_mem h)
    case isFalse => exact h

theorem evict_length {b : Nat} (hb : 0 < b) : ∀ l : List (Time × Int),
    (evict b l).length ≤ b - 1
  | [] => by simp [evict]
  | q :: rest => by
    rw [evict]
    split
    case isTrue => exact evict_length hb rest
    case isFalse h =>
      have : ¬ b ≤ (q :: rest).length := fun hle => h ⟨hb, hle⟩
      omega

theorem evict_of_length_lt {b : Nat} {l : List (Time × Int)} (h : l.length < b) :
    evict b l = l := by
  cases l with
  | nil => simp [evict]
  | cons q rest =>
    rw [evict, if_neg]
    intro ⟨_, hle⟩
    omega

theorem evict_of_length_eq {b : Nat} {l : List (Time × Int)} (hb : 0 < b)
    (h : l.length = b) : evict b l = l.tail := by
  cases l with
  | nil => simp at h; omega
  | cons q rest =>
    rw [evict, if_pos ⟨hb, by omega⟩, evict_of_length_lt (by simp at h; omega)]
    rfl

theorem Stream.push_mem {s : Stream} {ts : Time} {v : Int} {p : Time × Int}
    (h : p ∈ (s.push ts v).buffer) : p ∈ s.buffer ∨ p = (ts, v) := by
  rw [Stream.push] at h
  split at h
  case isTrue => exact Or.inl h
  case isFalse =>
    simp only at h
    rcases List.mem_append.mp h with h1 | h1
    · exact Or.inl (evict_mem h1)
    · simpa using Or.inr (List.mem_singleton.mp h1)

theorem Stream.push_fields (s : Stream) (ts : Time) (v : Int) :
    (s.push ts v).ty = s.ty ∧ (s.push ts v).bufferSize = s.bufferSize ∧
    (s.push ts v).period = s.period := by
  rw [Stream.push]; split <;> simp

theorem Stream.push_accepted {s : Stream} {ts : Time} {v : Int} (h : s.lastTime ≤ ts) :
    s.push ts v =
      { s with lastTime := ts, buffer := evict s.bufferSize s.buffer ++ [(ts, v)] } := by
  rw [Stream.push, if_neg (not_lt.mpr h)]

theorem Stream.pop_buffer (s : Stream) (late : Bool) :
    ((s.pop late).1).buffer = s.buffer.tail := by
  cases hb : s.buffer with
  | nil => simp [Stream.pop, hb]
  | cons f rest =>
    simp only [Stream.pop, hb]
    split <;> rfl

theorem Stream.pop_fields (s : Stream) (late : Bool) :
    ((s.pop late).1).ty = s.ty ∧ ((s.pop late).1).bufferSize = s.bufferSize ∧
    ((s.pop late).1).period = s.period ∧ ((s.pop late).1).lastTime = s.lastTime := by
  cases hb : s.buffer with
  | nil => simp [Stream.pop, hb]
  | cons f rest =>
    simp only [Stream.pop, hb]
    split <;> simp

theorem Stream.pop_mem {s : Stream} {late : Bool} {p : Time × Int}
    (h : p ∈ ((s.pop late).1).buffer) : p ∈ s.buffer := by
  rw [Stream.pop_buffer] at h
  exact List.mem_of_mem_tail h

/- ------------------------------------------------------------------ -/
/- Lemmas about the sweep loop                                         -/
/- ------------------------------------------------------------------ -/

theorem sweepBuf_mem {c lp : Time} : ∀ {l : List (Time × Int)} {p : Time × Int},
    p ∈ (sweepBuf c lp l).1 → p ∈ l
  | [], p, h => by simp [sweepBuf] at h
  | q :: rest, p, h => by
    rw [sweepBuf] at h
    split at h
    case isTrue => exact List.mem_cons_of_mem q (sweepBuf_mem h)
    case isFalse => exact h

theorem sweepBuf_data {c lp : Time} : ∀ {l : List (Time × Int)} {t : Time},
    (sweepBuf c lp l).2 = some (t, true) →
    ∃ v rest, (sweepBuf c lp l).1 = (t, v) :: rest ∧ c ≤ t
  | [], t, h => by
    rw [sweepBuf] at h
    split at h <;> simp_all
  | q :: rest, t, h => by
    by_cases hq : q.1 < c
    · rw [sweepBuf, if_pos hq] at h ⊢
      exact sweepBuf_data h
    · rw [sweepBuf, if_neg hq] at h ⊢
      simp only [Option.some.injEq, Prod.mk.injEq] at h
      obtain ⟨h1, -⟩ := h
      exact ⟨q.2, rest, by subst h1; rfl, h1 ▸ le_of_not_lt hq⟩

theorem Stream.sweep_fields (s : Stream) (c : Time) :
    ((s.sweep c).1).ty = s.ty ∧ ((s.sweep c).1).bufferSize = s.bufferSize ∧
    ((s.sweep c).1).period = s.period ∧ ((s.sweep c).1).lastTime = s.lastTime ∧
    ((s.sweep c).1).overdue = s.overdue := by
  simp [Stream.sweep]

theorem Stream.sweep_mem {s : Stream} {c : Time} {p : Time × Int}
    (h : p ∈ ((s.sweep c).1).buffer) : p ∈ s.buffer :=
  sweepBuf_mem (by simpa [Stream.sweep] using h)

theorem Stream.sweep_data {s : Stream} {c t : Time}
    (h : (s.sweep c).2 = some (t, true)) :
    ∃ v rest, ((s.sweep c).1).buffer = (t, v) :: rest ∧ c ≤ t := by
  rw [Stream.sweep] at h
  simp only at h
  obtain ⟨v, rest, h1, h2⟩ := sweepBuf_data h
  exact ⟨v, rest, by simp [Stream.sweep, h1], h2⟩

/- ------------------------------------------------------------------ -/
/- Lemmas about candidate collection                                   -/
/- ------------------------------------------------------------------ -/

theorem buildItems_fst (c : Time) : ∀ (ss : List Stream) (i : Nat),
    (buildItems c ss i).1 = ss.map (fun s => (s.sweep c).1)
  | [], _ => rfl
  | s :: rest, i => by
    rw [buildItems]
    simp [buildItems_fst c rest (i + 1)]

theorem buildItems_good (c : Time) : ∀ (ss : List Stream) (i : Nat),
    ∀ it ∈ (buildItems c ss i).2, it.hasData = true →
      i ≤ it.idx ∧
      ∃ s v rest, ((buildItems c ss i).1)[it.idx - i]? = some s ∧
        s.buffer = (it.time, v) :: rest ∧ c ≤ it.time
  | [], i => by intro it hit; rw [buildItems] at hit; simp at hit
  | s :: ss, i => by
    intro it hit hd
    rw [buildItems] at hit
    rcases List.mem_append.mp hit with hhead | htail
    · cases hsw : (s.sweep c).2 with
      | none => rw [hsw] at hhead; simp at hhead
      | some td =>
        obtain ⟨tt, tb⟩ := td
        rw [hsw] at hhead
        simp only [List.mem_singleton] at hhead
        subst hhead
        simp only at hd
        subst hd
        obtain ⟨v, rest, hb, hc⟩ := Stream.sweep_data hsw
        refine ⟨le_refl i, (s.sweep c).1, v, rest, ?_, hb, hc⟩
        rw [buildItems]
        simp
    · obtain ⟨hle, s', v, rest, hget, hb, hc⟩ := buildItems_good c ss (i + 1) it htail hd
      refine ⟨by omega, s', v, rest, ?_, hb, hc⟩
      rw [buildItems]
      have hk : it.idx - i = (it.idx - (i + 1)) + 1 := by omega
      rw [hk]
      simpa using hget

theorem buildItems_goodItems (c : Time) (ss : List Stream) :
    GoodItems c (buildItems c ss 0).1 (buildItems c ss 0).2 := by
  intro it hit hd
  obtain ⟨-, s, v, rest, h1, h2, h3⟩ := buildItems_good c ss 0 it hit hd
  exact ⟨s, v, rest, by simpa using h1, h2, h3⟩

theorem BufBound_buildItems {L c : Time} {ss : List Stream}
    (h : BufBound L ss) : BufBound L (buildItems c ss 0).1 := by
  rw [buildItems_fst]
  intro s' hs' p hp
  obtain ⟨s, hs, rfl⟩ := List.mem_map.mp hs'
  exact h s hs p (Stream.sweep_mem hp)

/- ------------------------------------------------------------------ -/
/- Lemmas about the scan over the sorted candidates                    -/
/- ------------------------------------------------------------------ -/

theorem markOverdue_buffer (ss : List Stream) (i j : Nat) :
    (((markOverdue ss i)[j]?).map Stream.buffer) = ((ss[j]?).map Stream.buffer) := by
  rw [markOverdue]
  cases h : ss[i]? with
  | none => rfl
  | some s =>
    by_cases hij : j = i
    · subst hij
      rw [List.getElem?_set_self', h]
      rfl
    · rw [List.getElem?_set_ne (Ne.symm hij)]

theorem markOverdue_BufBound {L : Time} {ss : List Stream} {i : Nat}
    (h : BufBound L ss) : BufBound L (markOverdue ss i) := by
  rw [markOverdue]
  cases hg : ss[i]? with
  | none => exact h
  | some s =>
    intro s' hs' p hp
    rcases List.mem_or_eq_of_mem_set hs' with h1 | h1
    · exact h s' h1 p hp
    · subst h1
      exact h s (List.getElem?_mem hg) p hp

theorem popAt_BufBound {L : Time} {ss : List Stream} {i : Nat} {late : Bool}
    (h : BufBound L ss) : BufBound L (popAt ss i late).1 := by
  rw [popAt]
  cases hg : ss[i]? with
  | none => exact h
  | some s =>
    intro s' hs' p hp
    rcases List.mem_or_eq_of_mem_set hs' with h1 | h1
    · exact h s' h1 p hp
    · subst h1
      exact h s (List.getElem?_mem hg) p (Stream.pop_mem hp)

theorem GoodItems_mono {c : Time} {ss : List Stream} {items items' : List StreamIndex}
    (hsub : ∀ it ∈ items', it ∈ items) (h : GoodItems c ss items) :
    GoodItems c ss items' :=
  fun it hit => h it (hsub it hit)

theorem GoodItems_markOverdue {c : Time} {ss : List Stream} {i : Nat}
    {items : List StreamIndex} (h : GoodItems c ss items) :
    GoodItems c (markOverdue ss i) items := by
  intro it hit hd
  obtain ⟨s, v, rest, h1, h2, h3⟩ := h it hit hd
  have hb := markOverdue_buffer ss i it.idx
  rw [h1] at hb
  cases hg : (markOverdue ss i)[it.idx]? with
  | none => rw [hg] at hb; simp at hb
  | some s' =>
    rw [hg] at hb
    simp only [Option.map_some'] at hb
    refine ⟨s', v, rest, rfl, ?_, h3⟩
    rw [Option.some.injEq] at hb
    rw [hb, h2]

theorem scan_spec (c : Time) : ∀ (items : List StreamIndex) (r : SampleReader),
    GoodItems c r.streams items →
    (scan r items).1.latest_ts = r.latest_ts ∧
    (scan r items).1.timeout = r.timeout ∧
    (∀ L, BufBound L r.streams → BufBound L (scan r items).1.streams) ∧
    (∀ e, (scan r items).2.1 = some e →
      (scan r items).1.current_ts = e.ts ∧ c ≤ e.ts ∧
      ∃ s v rest, r.streams[e.idx]? = some s ∧ s.buffer = (e.ts, v) :: rest) ∧
    ((scan r items).2.1 = none → (scan r items).1.current_ts = r.current_ts)
  | [], r, _ => by
    refine ⟨rfl, rfl, fun L h => h, fun e h => ?_, fun _ => rfl⟩
    exact Option.noConfusion h
  | it :: rest, r, hg => by
    by_cases hd : it.hasData = true
    · obtain ⟨s, v, rest', h1, h2, h3⟩ := hg it (List.mem_cons_self it rest) hd
      have hpop : popAt r.streams it.idx false =
          (r.streams.set it.idx { s with buffer := rest', overdue := false },
           some (it.time, v)) := by
        simp [popAt, h1, Stream.pop, h2]
      rw [scan, if_pos hd, hpop]
      refine ⟨rfl, rfl, ?_, ?_, ?_⟩
      · intro L hb
        have hres := @popAt_BufBound L r.streams it.idx false hb
        rw [hpop] at hres
        exact hres
      · intro e he
        simp only [Option.map_some'] at he
        rw [Option.some.injEq] at he
        subst he
        exact ⟨rfl, h3, s, v, rest', h1, h2⟩
      · intro hn
        simp at hn
    · rw [scan, if_neg hd]
      by_cases hw : r.latest_ts < it.time + r.timeout
      · rw [if_pos hw]
        exact ⟨rfl, rfl, fun L h => h, fun e h => Option.noConfusion h, fun _ => rfl⟩
      · rw [if_neg hw]
        have hg' : GoodItems c (markOverdue r.streams it.idx) rest :=
          GoodItems_markOverdue (GoodItems_mono (fun x hx => List.mem_cons_of_mem it hx) hg)
        obtain ⟨ih1, ih2, ih3, ih4, ih5⟩ :=
          scan_spec c rest { r with streams := markOverdue r.streams it.idx } hg'
        refine ⟨ih1, ih2, ?_, ?_, ih5⟩
        · intro L hb
          exact ih3 L (markOverdue_BufBound hb)
        · intro e he
          obtain ⟨he1, he2, s', v, rest', hget, hbuf⟩ := ih4 e he
          refine ⟨he1, he2, ?_⟩
          have hb := markOverdue_buffer r.streams it.idx e.idx
          rw [hget] at hb
          cases hr : r.streams[e.idx]? with
          | none => rw [hr] at hb; simp at hb
          | some s0 =>
            rw [hr] at hb
            simp only [Option.map_some'] at hb
            rw [Option.some.injEq] at hb
            exact ⟨s0, v, rest', rfl, by rw [← hb, hbuf]⟩

theorem step_spec {sortf : List StreamIndex → List StreamIndex} (hs : SortSpec sortf)
    (r : SampleReader) :
    (SampleReader.step sortf r).1.latest_ts = r.latest_ts ∧
    (SampleReader.step sortf r).1.timeout = r.timeout ∧
    (∀ L, BufBound L r.streams → BufBound L (SampleReader.step sortf r).1.streams) ∧
    (∀ e, (SampleReader.step sortf r).2.1 = some e →
      (SampleReader.step sortf r).1.current_ts = e.ts ∧ r.current_ts ≤ e.ts ∧
      ∀ L, BufBound L r.streams → e.ts ≤ L) ∧
    ((SampleReader.step sortf r).2.1 = none →
      (SampleReader.step sortf r).1.current_ts = r.current_ts) := by
  rw [SampleReader.step]
  by_cases he : r.streams.isEmpty
  · rw [if_pos he]
    exact ⟨rfl, rfl, fun L h => h, fun e h => Option.noConfusion h, fun _ => rfl⟩
  · rw [if_neg he]
    by_cases hn : (buildItems r.current_ts r.streams 0).2.isEmpty
        || !((buildItems r.current_ts r.streams 0).2.any (fun it => it.hasData))
    · rw [if_pos hn]
      exact ⟨rfl, rfl, fun L h => BufBound_buildItems h,
        fun e h => Option.noConfusion h, fun _ => rfl⟩
    · rw [if_neg hn]
      have hgood : GoodItems r.current_ts (buildItems r.current_ts r.streams 0).1
          (sortf (buildItems r.current_ts r.streams 0).2) :=
        GoodItems_mono
          (fun x hx => ((hs (buildItems r.current_ts r.streams 0).2).1).subset hx)
          (buildItems_goodItems r.current_ts r.streams)
      obtain ⟨ih1, ih2, ih3, ih4, ih5⟩ :=
        scan_spec r.current_ts (sortf (buildItems r.current_ts r.streams 0).2)
          { r with streams := (buildItems r.current_ts r.streams 0).1 } hgood
      refine ⟨ih1, ih2, ?_, ?_, ih5⟩
      · intro L hb
        exact ih3 L (BufBound_buildItems hb)
      · intro e he
        obtain ⟨he1, he2, s, v, rest, hget, hbuf⟩ := ih4 e he
        refine ⟨he1, he2, ?_⟩
        intro L hb
        have hbb : BufBound L (buildItems r.current_ts r.streams 0).1 :=
          BufBound_buildItems hb
        exact hbb s (List.getElem?_mem hget) (e.ts, v) (by rw [hbuf]; exact List.mem_cons_self _ _)

/- ------------------------------------------------------------------ -/
/- State-effect lemmas for the aggregator operations                   -/
/- ------------------------------------------------------------------ -/

theorem BufBound_mono {L L' : Time} {ss : List Stream} (h : L ≤ L') (hb : BufBound L ss) :
    BufBound L' ss :=
  fun s hs p hp => le_trans (hb s hs p hp) h

theorem Inv_init (t : Time) : Inv (SampleReader.init t) := by
  refine ⟨le_refl 0, ?_⟩
  intro s hs
  simp [SampleReader.init] at hs

theorem pushLatest_state (r : SampleReader) (ts : Time) :
    r.latest_ts ≤ (r.pushLatest ts).latest_ts ∧
    (r.pushLatest ts).current_ts = r.current_ts ∧
    (r.pushLatest ts).timeout = r.timeout ∧
    (r.pushLatest ts).streams = r.streams ∧
    ts ≤ (r.pushLatest ts).latest_ts := by
  rw [SampleReader.pushLatest]
  split
  case isTrue h => exact ⟨le_of_lt h, rfl, rfl, rfl, le_refl _⟩
  case isFalse h => exact ⟨le_refl _, rfl, rfl, rfl, le_of_not_lt h⟩

theorem push_state (r : SampleReader) (idx : Int) (ty : Nat) (ts : Time) (v : Int) :
    (r.push idx ty ts v).1.current_ts = r.current_ts ∧
    r.latest_ts ≤ (r.push idx ty ts v).1.latest_ts ∧
    (r.push idx ty ts v).1.timeout = r.timeout ∧
    (Inv r → Inv (r.push idx ty ts v).1) := by
  obtain ⟨hl1, hl2, hl3, hl4, hl5⟩ := pushLatest_state r ts
  have hInvL : Inv r → Inv (r.pushLatest ts) := by
    intro hi
    exact ⟨hl2 ▸ le_trans hi.1 hl1, hl4 ▸ BufBound_mono hl1 hi.2⟩
  rw [SampleReader.push]
  by_cases h0 : idx < 0
  · rw [if_pos h0]
    exact ⟨rfl, le_refl _, rfl, id⟩
  · rw [if_neg h0]
    by_cases h1 : ts + r.timeout < r.latest_ts
    · rw [if_pos h1]
      exact ⟨rfl, le_refl _, rfl, id⟩
    · rw [if_neg h1]
      cases hget : (r.pushLatest ts).streams[idx.toNat]? with
      | none => exact ⟨hl2, hl1, hl3, hInvL⟩
      | some s =>
        simp only []
        by_cases hty : s.ty = ty
        · rw [if_pos hty]
          refine ⟨hl2, hl1, hl3, ?_⟩
          intro hi
          refine ⟨hl2 ▸ le_trans hi.1 hl1, ?_⟩
          intro s' hs' p hp
          rcases List.mem_or_eq_of_mem_set hs' with hmem | hmem
          · exact BufBound_mono hl1 (hl4 ▸ hi.2) s' hmem p hp
          · subst hmem
            rcases Stream.push_mem hp with hold | hnew
            · exact BufBound_mono hl1 (hl4 ▸ hi.2) s (List.getElem?_mem hget) p hold
            · rw [hnew]
              exact hl5
        · rw [if_neg hty]
          exact ⟨hl2, hl1, hl3, hInvL⟩

theorem push_ok {r : SampleReader} {idx : Int} {ty : Nat} {ts : Time} {v : Int} {s : Stream}
    (h0 : ¬ idx < 0) (h1 : ¬ ts + r.timeout < r.latest_ts)
    (hget : (r.pushLatest ts).streams[idx.toNat]? = some s) (hty : s.ty = ty) :
    r.push idx ty ts v =
      ({ r.pushLatest ts with
          streams := (r.pushLatest ts).streams.set idx.toNat (s.push ts v) },
       PushOutcome.ok) := by
  rw [SampleReader.push, if_neg h0, if_neg h1, hget]
  simp only []
  rw [if_pos hty]

theorem push_typeAssertFail {r : SampleReader} {idx : Int} {ty : Nat} {ts : Time} {v : Int}
    {s : Stream} (h0 : ¬ idx < 0) (h1 : ¬ ts + r.timeout < r.latest_ts)
    (hget : (r.pushLatest ts).streams[idx.toNat]? = some s) (hty : ¬ s.ty = ty) :
    r.push idx ty ts v = (r.pushLatest ts, PushOutcome.typeAssertFail) := by
  rw [SampleReader.push, if_neg h0, if_neg h1, hget]
  simp only []
  rw [if_neg hty]

theorem push_outOfBounds {r : SampleReader} {idx : Int} {ty : Nat} {ts : Time} {v : Int}
    (h0 : ¬ idx < 0) (h1 : ¬ ts + r.timeout < r.latest_ts)
    (hget : (r.pushLatest ts).streams[idx.toNat]? = none) :
    r.push idx ty ts v = (r.pushLatest ts, PushOutcome.outOfBounds) := by
  rw [SampleReader.push, if_neg h0, if_neg h1, hget]

theorem registerStream_state (r : SampleReader) (ty b : Nat) (p : Time) :
    (r.registerStream ty b p).1.current_ts = r.current_ts ∧
    (r.registerStream ty b p).1.latest_ts = r.latest_ts ∧
    (r.registerStream ty b p).1.timeout = r.timeout ∧
    (Inv r → Inv (r.registerStream ty b p).1) := by
  refine ⟨rfl, rfl, rfl, ?_⟩
  intro hi
  refine ⟨hi.1, ?_⟩
  intro s hs q hq
  rcases List.mem_append.mp hs with hmem | hmem
  · exact hi.2 s hmem q hq
  · rw [List.mem_singleton] at hmem
    subst hmem
    simp at hq

theorem setTimeout_state (r : SampleReader) (t : Time) :
    (r.setTimeout t).current_ts = r.current_ts ∧
    (r.setTimeout t).latest_ts = r.latest_ts ∧
    (Inv r → Inv (r.setTimeout t)) :=
  ⟨rfl, rfl, fun hi => ⟨hi.1, hi.2⟩⟩

theorem step_inv {sortf : List StreamIndex → List StreamIndex} (hs : SortSpec sortf)
    {r : SampleReader} (h : Inv r) :
    Inv (SampleReader.step sortf r).1 ∧
    r.current_ts ≤ (SampleReader.step sortf r).1.current_ts ∧
    (SampleReader.step sortf r).1.latest_ts = r.latest_ts := by
  obtain ⟨s1, s2, s3, s4, s5⟩ := step_spec hs r
  cases hres : (SampleReader.step sortf r).2.1 with
  | none =>
    have hc := s5 hres
    exact ⟨⟨by rw [hc, s1]; exact h.1, s1 ▸ s3 r.latest_ts h.2⟩, le_of_eq hc.symm, s1⟩
  | some e =>
    obtain ⟨he1, he2, he3⟩ := s4 e hres
    have hts : e.ts ≤ r.latest_ts := he3 r.latest_ts h.2
    exact ⟨⟨by rw [he1, s1]; exact hts, s1 ▸ s3 r.latest_ts h.2⟩, he1 ▸ he2, s1⟩

/- ------------------------------------------------------------------ -/
/- Executions                                                          -/
/- ------------------------------------------------------------------ -/

theorem runOps_spec {sortf : List StreamIndex → List StreamIndex} (hs : SortSpec sortf) :
    ∀ (ops : List Op) (r : SampleReader), Inv r →
    Inv (runOps sortf r ops).1 ∧
    r.latest_ts ≤ (runOps sortf r ops).1.latest_ts ∧
    r.current_ts ≤ (runOps sortf r ops).1.current_ts ∧
    List.Chain' (fun a b => a.ts ≤ b.ts) (runOps sortf r ops).2 ∧
    (∀ e ∈ (runOps sortf r ops).2, r.current_ts ≤ e.ts)
  | [], r, h => by
    rw [runOps]
    exact ⟨h, le_refl _, le_refl _, List.chain'_nil, fun e he => absurd he (List.not_mem_nil e)⟩
  | Op.push i ty ts v :: rest, r, h => by
    obtain ⟨p1, p2, p3, p4⟩ := push_state r i ty ts v
    rw [runOps]
    split
    case isTrue =>
      exact ⟨p4 h, p2, le_of_eq p1.symm, List.chain'_nil,
        fun e he => absurd he (List.not_mem_nil e)⟩
    case isFalse =>
      obtain ⟨ih1, ih2, ih3, ih4, ih5⟩ := runOps_spec hs rest (r.push i ty ts v).1 (p4 h)
      exact ⟨ih1, le_trans p2 ih2, le_trans (le_of_eq p1.symm) ih3, ih4,
        fun e he => le_trans (le_of_eq p1.symm) (ih5 e he)⟩
  | Op.step :: rest, r, h => by
    obtain ⟨q1, q2, q3⟩ := step_inv hs h
    obtain ⟨s1, s2, s3, s4, s5⟩ := step_spec hs r
    obtain ⟨ih1, ih2, ih3, ih4, ih5⟩ :=
      runOps_spec hs rest (SampleReader.step sortf r).1 q1
    rw [runOps]
    refine ⟨ih1, le_trans (le_of_eq q3.symm) ih2, le_trans q2 ih3, ?_, ?_⟩
    · cases hres : (SampleReader.step sortf r).2.1 with
      | none => simpa using ih4
      | some e =>
        obtain ⟨he1, he2, -⟩ := s4 e hres
        simp only [Option.toList_some, List.singleton_append]
        refine List.chain'_cons'.mpr ⟨?_, ih4⟩
        intro y hy
        have hym : y ∈ (runOps sortf (SampleReader.step sortf r).1 rest).2 :=
          List.mem_of_mem_head? hy
        exact le_trans (le_of_eq he1.symm) (ih5 y hym)
    · intro e he
      rcases List.mem_append.mp he with hm | hm
      · cases hres : (SampleReader.step sortf r).2.1 with
        | none =>
          rw [hres] at hm
          simp at hm
        | some e0 =>
          rw [hres] at hm
          simp only [Option.toList_some, List.mem_singleton] at hm
          subst hm
          exact (s4 e hres).2.1
      · exact le_trans q2 (ih5 e hm)
  | Op.register ty b p :: rest, r, h => by
    obtain ⟨g1, g2, g3, g4⟩ := registerStream_state r ty b p
    obtain ⟨ih1, ih2, ih3, ih4, ih5⟩ := runOps_spec hs rest (r.registerStream ty b p).1 (g4 h)
    rw [runOps]
    exact ⟨ih1, le_trans (le_of_eq g2.symm) ih2, le_trans (le_of_eq g1.symm) ih3, ih4,
      fun e he => le_trans (le_of_eq g1.symm) (ih5 e he)⟩
  | Op.setTimeout t :: rest, r, h => by
    obtain ⟨t1, t2, t3⟩ := setTimeout_state r t
    obtain ⟨ih1, ih2, ih3, ih4, ih5⟩ := runOps_spec hs rest (r.setTimeout t) (t3 h)
    rw [runOps]
    exact ⟨ih1, le_trans (le_of_eq t2.symm) ih2, le_trans (le_of_eq t1.symm) ih3, ih4,
      fun e he => le_trans (le_of_eq t1.symm) (ih5 e he)⟩

/- ------------------------------------------------------------------ -/
/- Sort functions satisfying the std::sort contract                    -/
/- ------------------------------------------------------------------ -/

theorem sortSpec_timeSort : SortSpec timeSort := by
  intro l
  exact ⟨List.perm_insertionSort timeLE l, List.sorted_insertionSort timeLE l⟩

theorem sortSpec_timeSortRev : SortSpec timeSortRev := by
  intro l
  refine ⟨?_, List.sorted_insertionSort timeLE l.reverse⟩
  exact (List.perm_insertionSort timeLE l.reverse).trans (List.reverse_perm l)

/- ------------------------------------------------------------------ -/
/- Claim theorems                                                      -/
/- ------------------------------------------------------------------ -/

/-- C1: For every sequence of push and step operations on an aggregator (and
for every sort function satisfying the std::sort contract used inside step),
the timestamps of the samples delivered via the delivery callbacks (the
pop(late=false) calls) form a globally non-decreasing sequence across all
streams. -/
theorem C1_emitted_timestamps_monotone
    (sortf : List StreamIndex → List StreamIndex) (hsort : SortSpec sortf)
    (t0 : Time) (ops : List Op) :
    List.Chain' (fun a b => a.ts ≤ b.ts) (runOps sortf (SampleReader.init t0) ops).2 :=
  (runOps_spec hsort ops (SampleReader.init t0) (Inv_init t0)).2.2.2.1

/-- Witness for C1 at a concrete execution (one registered stream, one push,
two steps, with the stable insertion sort as the std::sort instance). -/
theorem C1_emitted_timestamps_monotone_witness :
    SortSpec timeSort ∧
    List.Chain' (fun a b => a.ts ≤ b.ts)
      (runOps timeSort (SampleReader.init 2)
        [Op.register 0 10 1, Op.push 0 0 1 10, Op.step, Op.step]).2 :=
  ⟨sortSpec_timeSort,
   C1_emitted_timestamps_monotone timeSort sortSpec_timeSort 2
     [Op.register 0 10 1, Op.push 0 0 1 10, Op.step, Op.step]⟩

/-- C6: At every reachable state, current_ts ≤ latest_ts; both latest_ts and
current_ts are non-decreasing under every further sequence of operations, and
getLatency() = latest_ts - current_ts is never negative. States are reached
from a freshly constructed aggregator by an arbitrary operation sequence. -/
theorem C6_clock_invariants
    (sortf : List StreamIndex → List StreamIndex) (hsort : SortSpec sortf)
    (t0 : Time) (ops1 ops2 : List Op) :
    (runOps sortf (SampleReader.init t0) ops1).1.current_ts ≤
      (runOps sortf (SampleReader.init t0) ops1).1.latest_ts ∧
    (runOps sortf (runOps sortf (SampleReader.init t0) ops1).1 ops2).1.current_ts ≤
      (runOps sortf (runOps sortf (SampleReader.init t0) ops1).1 ops2).1.latest_ts ∧
    (runOps sortf (SampleReader.init t0) ops1).1.latest_ts ≤
      (runOps sortf (runOps sortf (SampleReader.init t0) ops1).1 ops2).1.latest_ts ∧
    (runOps sortf (SampleReader.init t0) ops1).1.current_ts ≤
      (runOps sortf (runOps sortf (SampleReader.init t0) ops1).1 ops2).1.current_ts ∧
    0 ≤ ((runOps sortf (SampleReader.init t0) ops1).1).getLatency := by
  obtain ⟨i1, -, -, -, -⟩ := runOps_spec hsort ops1 (SampleReader.init t0) (Inv_init t0)
  obtain ⟨j1, j2, j3, -, -⟩ :=
    runOps_spec hsort ops2 (runOps sortf (SampleReader.init t0) ops1).1 i1
  refine ⟨i1.1, j1.1, j2, j3, ?_⟩
  rw [SampleReader.getLatency]
  exact Int.sub_nonneg.mpr i1.1

/-- Witness for C6 at a concrete execution. -/
theorem C6_clock_invariants_witness :
    SortSpec timeSort ∧
    ((runOps timeSort (SampleReader.init 2)
        [Op.register 0 10 0, Op.push 0 0 5 1, Op.step]).1.current_ts ≤
      (runOps timeSort (SampleReader.init 2)
        [Op.register 0 10 0, Op.push 0 0 5 1, Op.step]).1.latest_ts) ∧
    0 ≤ ((runOps timeSort (SampleReader.init 2)
        [Op.register 0 10 0, Op.push 0 0 5 1, Op.step]).1).getLatency :=
  ⟨sortSpec_timeSort,
   (C6_clock_invariants timeSort sortSpec_timeSort 2
     [Op.register 0 10 0, Op.push 0 0 5 1, Op.step] []).1,
   (C6_clock_invariants timeSort sortSpec_timeSort 2
     [Op.register 0 10 0, Op.push 0 0 5 1, Op.step] []).2.2.2.2⟩

/-- C2 as stated is false: a stale push (ts + timeout < latest_ts) with a
negative stream id does not return silently; the idx < 0 check precedes the
stale check, so it throws the invalid-index error. Here latest_ts = 10,
timeout = 2 and the push uses ts = 0 with id = -1. -/
theorem C2_stale_push_cex :
    ((0 : Time) + exampleReader.timeout < exampleReader.latest_ts) ∧
    (exampleReader.push (-1) 0 0 5).2 = PushOutcome.invalidIndexError ∧
    PushOutcome.surfacedError (exampleReader.push (-1) 0 0 5).2 = true := by
  decide

/-- C2 (amended: for id ≥ 0): a push whose timestamp satisfies
ts + timeout < latest_ts returns silently with no error and changes no state,
and such a push contributes nothing to any execution: running it in front of
any operation sequence yields exactly the same final state and the same
callback trace, so no sample that was stale at its push time is ever
delivered to a callback. -/
theorem C2_stale_push_silent_noop
    (r : SampleReader) (idx : Int) (ty : Nat) (ts : Time) (v : Int)
    (h0 : 0 ≤ idx) (hstale : ts + r.timeout < r.latest_ts) :
    r.push idx ty ts v = (r, PushOutcome.staleDrop) ∧
    PushOutcome.surfacedError (r.push idx ty ts v).2 = false ∧
    ∀ (sortf : List StreamIndex → List StreamIndex) (ops : List Op),
      runOps sortf r (Op.push idx ty ts v :: ops) = runOps sortf r ops := by
  have hpush : r.push idx ty ts v = (r, PushOutcome.staleDrop) := by
    rw [SampleReader.push, if_neg (not_lt.mpr h0), if_pos hstale]
  refine ⟨hpush, ?_, ?_⟩
  · rw [hpush]
    rfl
  intro sortf ops
  rw [runOps, hpush]
  simp [PushOutcome.fatal]

/-- Witness for the amended C2: in the state with latest_ts = 10 and
timeout = 2, a push at ts = 0 on stream 0 is stale, is silently dropped, and
prepending it to a run changes nothing. -/
theorem C2_stale_push_silent_noop_witness :
    ((0 : Int) ≤ 0 ∧ (0 : Time) + exampleReader.timeout < exampleReader.latest_ts) ∧
    exampleReader.push 0 0 0 7 = (exampleReader, PushOutcome.staleDrop) ∧
    runOps timeSort exampleReader [Op.push 0 0 0 7, Op.step] =
      runOps timeSort exampleReader [Op.step] := by
  refine ⟨⟨by decide, by decide⟩, ?_, ?_⟩
  · exact (C2_stale_push_silent_noop exampleReader 0 0 0 7 (by decide) (by decide)).1
  · exact (C2_stale_push_silent_noop exampleReader 0 0 0 7 (by decide) (by decide)).2.2
      timeSort [Op.step]

/-- C9: in push, the stale check runs before the stream index is used for
anything but the sign test, so a stale push whose id is not negative but is
at least streams.size() returns silently with no error and no state change,
instead of reporting the invalid index. -/
theorem C9_stale_check_before_index_use
    (r : SampleReader) (idx : Int) (ty : Nat) (ts : Time) (v : Int)
    (h0 : 0 ≤ idx) (_hsz : r.streams.length ≤ idx.toNat)
    (hstale : ts + r.timeout < r.latest_ts) :
    r.push idx ty ts v = (r, PushOutcome.staleDrop) ∧
    PushOutcome.surfacedError (r.push idx ty ts v).2 = false := by
  have hpush : r.push idx ty ts v = (r, PushOutcome.staleDrop) := by
    rw [SampleReader.push, if_neg (not_lt.mpr h0), if_pos hstale]
  refine ⟨hpush, ?_⟩
  rw [hpush]
  rfl

/-- Witness for C9: in the state with one stream, latest_ts = 10 and
timeout = 2, push(id=1, ts=0) has id = streams.size() and is stale; it is
silently dropped with no state change. -/
theorem C9_stale_check_before_index_use_witness :
    ((0 : Int) ≤ 1 ∧ exampleReader.streams.length ≤ (1 : Int).toNat ∧
      (0 : Time) + exampleReader.timeout < exampleReader.latest_ts) ∧
    exampleReader.push 1 0 0 5 = (exampleReader, PushOutcome.staleDrop) :=
  ⟨⟨by decide, by decide, by decide⟩,
   (C9_stale_check_before_index_use exampleReader 1 0 0 5 (by decide) (by decide)
      (by decide)).1⟩

/-- C10: push performs the latest_ts update before the dynamic_cast type
check, so a push with a valid id, a non-stale timestamp strictly greater than
latest_ts, and a stream whose element type differs from the pushed type
advances latest_ts to ts even though the push then halts on the failed
assert and stores nothing: the type-mismatch failure is not atomic. -/
theorem C10_latest_ts_updated_before_type_check
    (r : SampleReader) (idx : Int) (ty : Nat) (ts : Time) (v : Int)
    (h0 : 0 ≤ idx) (h1 : idx.toNat < r.streams.length)
    (hstale : ¬ (ts + r.timeout < r.latest_ts)) (hgt : r.latest_ts < ts)
    (hty : (r.streams.get ⟨idx.toNat, h1⟩).ty ≠ ty) :
    r.push idx ty ts v = ({ r with latest_ts := ts }, PushOutcome.typeAssertFail) := by
  have hlat : r.pushLatest ts = { r with latest_ts := ts } := by
    rw [SampleReader.pushLatest, if_pos hgt]
  have hget : (r.pushLatest ts).streams[idx.toNat]? =
      some (r.streams.get ⟨idx.toNat, h1⟩) := by
    rw [hlat]
    show r.streams[idx.toNat]? = _
    rw [List.getElem?_eq_getElem h1]
    simp
  rw [push_typeAssertFail (not_lt.mpr h0) hstale hget hty, hlat]

/-- Witness for C10: one stream of type tag 0, latest_ts = 0; pushing type
tag 1 at ts = 5 advances latest_ts to 5 and fails the assert. -/
theorem C10_latest_ts_updated_before_type_check_witness :
    ((0 : Int) ≤ 0 ∧ (0 : Int).toNat < oneStreamReader.streams.length ∧
      ¬ ((5 : Time) + oneStreamReader.timeout < oneStreamReader.latest_ts) ∧
      oneStreamReader.latest_ts < 5) ∧
    oneStreamReader.push 0 1 5 7 =
      ({ oneStreamReader with latest_ts := 5 }, PushOutcome.typeAssertFail) :=
  ⟨⟨by decide, by decide, by decide, by decide⟩,
   C10_latest_ts_updated_before_type_check oneStreamReader 0 1 5 7 (by decide) (by decide)
     (by decide) (by decide) (by decide)⟩

/-- C4 is wrong about the code (code bug): for id ≥ streams.size() no
invalid-index error is raised. In the state with exactly one registered
stream, a non-stale push to id 1 first advances latest_ts to 3 and then
performs the unchecked vector access streams[1], which is out of bounds
(undefined behaviour) — the id < 0 test is the only index check in push. -/
theorem C4_upper_bound_unchecked_eval :
    oneStreamReader.push 1 0 3 9 =
      ({ oneStreamReader with latest_ts := 3 }, PushOutcome.outOfBounds) ∧
    PushOutcome.surfacedError PushOutcome.outOfBounds = false := by
  decide

/-- C5 as stated is false: a push with a valid id and a mismatched element
type does not surface a TypeMismatch error to the caller. The dynamic_cast
yields a null pointer and the subsequent assert(stream) aborts the process;
the only error the caller can catch is the invalid-index exception. -/
theorem C5_type_mismatch_cex :
    (oneStreamReader.push 0 1 5 7).2 = PushOutcome.typeAssertFail ∧
    PushOutcome.surfacedError (oneStreamReader.push 0 1 5 7).2 = false := by
  decide

/-- C5 (amended): a push with a valid id whose registered stream holds a
different element type halts via the failed assert(stream) after the null
dynamic_cast — an abort, not an error surfaced to the caller — and the
sample is never cast or stored: the stream vector is unchanged. -/
theorem C5_type_mismatch_asserts_not_stored
    (r : SampleReader) (idx : Int) (ty : Nat) (ts : Time) (v : Int)
    (h0 : 0 ≤ idx) (h1 : idx.toNat < r.streams.length)
    (hstale : ¬ (ts + r.timeout < r.latest_ts))
    (hty : (r.streams.get ⟨idx.toNat, h1⟩).ty ≠ ty) :
    (r.push idx ty ts v).2 = PushOutcome.typeAssertFail ∧
    PushOutcome.surfacedError (r.push idx ty ts v).2 = false ∧
    (r.push idx ty ts v).1.streams = r.streams := by
  have hget : (r.pushLatest ts).streams[idx.toNat]? =
      some (r.streams.get ⟨idx.toNat, h1⟩) := by
    rw [(pushLatest_state r ts).2.2.2.1, List.getElem?_eq_getElem h1]
    simp
  rw [push_typeAssertFail (not_lt.mpr h0) hstale hget hty]
  exact ⟨rfl, rfl, (pushLatest_state r ts).2.2.2.1⟩

/-- Witness for the amended C5. -/
theorem C5_type_mismatch_asserts_not_stored_witness :
    ((0 : Int) ≤ 0 ∧ (0 : Int).toNat < oneStreamReader.streams.length) ∧
    (oneStreamReader.push 0 1 5 7).2 = PushOutcome.typeAssertFail ∧
    (oneStreamReader.push 0 1 5 7).1.streams = oneStreamReader.streams :=
  ⟨⟨by decide, by decide⟩,
   (C5_type_mismatch_asserts_not_stored oneStreamReader 0 1 5 7 (by decide) (by decide)
      (by decide) (by decide)).1,
   (C5_type_mismatch_asserts_not_stored oneStreamReader 0 1 5 7 (by decide) (by decide)
      (by decide) (by decide)).2.2⟩

theorem scan_emit_min (c : Time) : ∀ (items : List StreamIndex) (r : SampleReader)
    (e : Emit), GoodItems c r.streams items → List.Pairwise timeLE items →
    (scan r items).2.1 = some e →
    ∀ it ∈ items, it.hasData = true → e.ts ≤ it.time
  | [], r, e, _, _, he => by exact Option.noConfusion he
  | it :: rest, r, e, hg, hpw, he => by
    by_cases hd : it.hasData = true
    · obtain ⟨s, v, rest', h1, h2, h3⟩ := hg it (List.mem_cons_self it rest) hd
      have hpop : popAt r.streams it.idx false =
          (r.streams.set it.idx { s with buffer := rest', overdue := false },
           some (it.time, v)) := by
        simp [popAt, h1, Stream.pop, h2]
      rw [scan, if_pos hd, hpop] at he
      simp only [Option.map_some'] at he
      rw [Option.some.injEq] at he
      subst he
      intro it' hit' hd'
      rcases List.mem_cons.mp hit' with hit' | hit'
      · subst hit'
        exact le_refl _
      · exact List.rel_of_pairwise_cons hpw hit'
    · rw [scan, if_neg hd] at he
      by_cases hw : r.latest_ts < it.time + r.timeout
      · rw [if_pos hw] at he
        exact Option.noConfusion he
      · rw [if_neg hw] at he
        have hg' : GoodItems c (markOverdue r.streams it.idx) rest :=
          GoodItems_markOverdue (GoodItems_mono (fun x hx => List.mem_cons_of_mem it hx) hg)
        have ih := scan_emit_min c rest
          { r with streams := markOverdue r.streams it.idx } e hg' hpw.of_cons he
        intro it' hit' hd'
        rcases List.mem_cons.mp hit' with hit' | hit'
        · subst hit'
          exact absurd hd' hd
        · exact ih it' hit' hd'

/-- C3 as stated is false: the candidate sort in step is std::sort, which is
not stable. The function timeSortRev (insertion sort of the reversed list)
satisfies the std::sort contract SortSpec, yet in the reachable state with
two streams each buffering one sample with the identical timestamp 5, a step
using it emits the sample of stream 1 — the later-registered stream — before
stream 0. -/
theorem C3_stable_tie_break_cex :
    SortSpec timeSortRev ∧
    (SampleReader.step timeSortRev twoStreamTie).2.1 = some (Emit.mk 1 5 200) := by
  refine ⟨sortSpec_timeSortRev, ?_⟩
  decide

/-- C3 (amended): the candidate list of step is sorted ascending by next_ts —
every conforming std::sort result is a permutation of the candidates that is
pairwise non-descending in the time field — and the emitted sample (when a
step emits) carries a timestamp that is minimal among all candidates holding
data. The relative order of candidates with identical next_ts is unspecified
(std::sort is not stable), so no registration-order tie-break is guaranteed;
see the counterexample. -/
theorem C3_sort_ascending_emit_minimal
    (sortf : List StreamIndex → List StreamIndex) (hsort : SortSpec sortf)
    (r : SampleReader) :
    List.Perm (sortf (buildItems r.current_ts r.streams 0).2)
      (buildItems r.current_ts r.streams 0).2 ∧
    List.Pairwise timeLE (sortf (buildItems r.current_ts r.streams 0).2) ∧
    (∀ e, (SampleReader.step sortf r).2.1 = some e →
      ∀ it ∈ (buildItems r.current_ts r.streams 0).2, it.hasData = true →
        e.ts ≤ it.time) := by
  refine ⟨(hsort _).1, (hsort _).2, ?_⟩
  intro e he it hit hd
  rw [SampleReader.step] at he
  by_cases hemp : r.streams.isEmpty
  · rw [if_pos hemp] at he
    exact Option.noConfusion he
  · rw [if_neg hemp] at he
    by_cases hn : (buildItems r.current_ts r.streams 0).2.isEmpty
        || !((buildItems r.current_ts r.streams 0).2.any (fun c => c.hasData))
    · rw [if_pos hn] at he
      exact Option.noConfusion he
    · rw [if_neg hn] at he
      have hgood : GoodItems r.current_ts (buildItems r.current_ts r.streams 0).1
          (sortf (buildItems r.current_ts r.streams 0).2) :=
        GoodItems_mono
          (fun x hx => ((hsort (buildItems r.current_ts r.streams 0).2).1).subset hx)
          (buildItems_goodItems r.current_ts r.streams)
      have hmem : it ∈ sortf (buildItems r.current_ts r.streams 0).2 :=
        ((hsort (buildItems r.current_ts r.streams 0).2).1).mem_iff.mpr hit
      exact scan_emit_min r.current_ts (sortf (buildItems r.current_ts r.streams 0).2)
        { r with streams := (buildItems r.current_ts r.streams 0).1 } e hgood
        (hsort _).2 he it hmem hd

/-- Witness for the amended C3 at the two-stream tie state, with the stable
insertion sort as the std::sort instance. -/
theorem C3_sort_ascending_emit_minimal_witness :
    SortSpec timeSort ∧
    List.Pairwise timeLE (timeSort (buildItems twoStreamTie.current_ts
      twoStreamTie.streams 0).2) :=
  ⟨sortSpec_timeSort,
   (C3_sort_ascending_emit_minimal timeSort sortSpec_timeSort twoStreamTie).2.1⟩

/-- C7: for a stream with positive capacity whose buffer respects the bound,
Stream::push keeps buffer.size() ≤ bufferSize, and an accepted push on a full
buffer first drops the oldest buffered sample and then appends the new one at
the back (drop-oldest eviction). -/
theorem C7_drop_oldest_eviction
    (s : Stream) (ts : Time) (v : Int)
    (hb : 0 < s.bufferSize) (hlen : s.buffer.length ≤ s.bufferSize) :
    (s.push ts v).buffer.length ≤ s.bufferSize ∧
    (s.lastTime ≤ ts → s.buffer.length = s.bufferSize →
      (s.push ts v).buffer = s.buffer.tail ++ [(ts, v)]) := by
  constructor
  · rw [Stream.push]
    split
    case isTrue => exact hlen
    case isFalse =>
      simp only [List.length_append, List.length_cons, List.length_nil]
      have := evict_length hb s.buffer
      omega
  · intro hacc hfull
    rw [Stream.push_accepted hacc]
    simp only []
    rw [evict_of_length_eq hb hfull]

/-- Witness for C7 on a concrete full stream (capacity 2, two samples): the
push evicts the oldest sample and appends the new one. -/
theorem C7_drop_oldest_eviction_witness :
    (0 < exampleStream.bufferSize ∧
      exampleStream.buffer.length = exampleStream.bufferSize) ∧
    (exampleStream.push 3 30).buffer.length ≤ exampleStream.bufferSize ∧
    (exampleStream.push 3 30).buffer = exampleStream.buffer.tail ++ [(3, 30)] :=
  ⟨⟨by decide, by decide⟩,
   (C7_drop_oldest_eviction exampleStream 3 30 (by decide) (by decide)).1,
   (C7_drop_oldest_eviction exampleStream 3 30 (by decide) (by decide)).2
     (by decide) (by decide)⟩

/- ------------------------------------------------------------------ -/
/- Single-stream round trip (C8)                                       -/
/- ------------------------------------------------------------------ -/

theorem step_single_data {sortf : List StreamIndex → List StreamIndex}
    (hsort : SortSpec sortf) (ty b : Nat) (p lt t0 L C : Time) (od : Bool)
    (tq : Time) (vq : Int) (rest : List (Time × Int)) (hC : C ≤ tq) :
    SampleReader.step sortf
      (SampleReader.mk [Stream.mk ty ((tq, vq) :: rest) b p lt od] t0 L C) =
      (SampleReader.mk [Stream.mk ty rest b p lt false] t0 L tq,
       some (Emit.mk 0 tq vq), true) := by
  have hsw : sweepBuf C (lt + p) ((tq, vq) :: rest) =
      ((tq, vq) :: rest, some (tq, true)) := by
    rw [sweepBuf, if_neg (not_lt.mpr hC)]
  have hsing : sortf [StreamIndex.mk tq true 0] = [StreamIndex.mk tq true 0] :=
    List.perm_singleton.mp (hsort [StreamIndex.mk tq true 0]).1
  simp [SampleReader.step, buildItems, Stream.sweep, hsw, hsing, scan, popAt, Stream.pop]

theorem step_single_empty (sortf : List StreamIndex → List StreamIndex)
    (ty b : Nat) (p lt t0 L C : Time) (od : Bool) :
    SampleReader.step sortf (SampleReader.mk [Stream.mk ty [] b p lt od] t0 L C) =
      (SampleReader.mk [Stream.mk ty [] b p lt od] t0 L C, none, false) := by
  by_cases hn : lt + p = 0
  · have hsw : sweepBuf C (lt + p) ([] : List (Time × Int)) = ([], none) := by
      rw [sweepBuf, if_neg (not_not_intro hn)]
    simp [SampleReader.step, buildItems, Stream.sweep, hsw]
  · have hsw : sweepBuf C (lt + p) ([] : List (Time × Int)) =
        ([], some (lt + p, false)) := by
      rw [sweepBuf, if_pos hn]
    simp [SampleReader.step, buildItems, Stream.sweep, hsw]

theorem steps_drain_empty (sortf : List StreamIndex → List StreamIndex)
    (ty b : Nat) (p lt t0 L C : Time) (od : Bool) :
    ∀ k, stepsTrace sortf (SampleReader.mk [Stream.mk ty [] b p lt od] t0 L C) k = []
  | 0 => rfl
  | k + 1 => by
    rw [stepsTrace, step_single_empty sortf ty b p lt t0 L C od,
      steps_drain_empty sortf ty b p lt t0 L C od k]
    rfl

theorem steps_drain {sortf : List StreamIndex → List StreamIndex}
    (hsort : SortSpec sortf) (ty b : Nat) (p t0 L : Time) :
    ∀ (buf : List (Time × Int)) (lt C : Time) (od : Bool),
    List.Pairwise tsLE buf → (∀ x ∈ buf, C ≤ x.1) →
    ∀ k, stepsTrace sortf (SampleReader.mk [Stream.mk ty buf b p lt od] t0 L C) k =
      (buf.map (fun q => Emit.mk 0 q.1 q.2)).take k
  | [], lt, C, od, _, _, k => by
    rw [steps_drain_empty sortf ty b p lt t0 L C od k]
    simp
  | (tq, vq) :: rest, lt, C, od, hpw, hx, 0 => rfl
  | (tq, vq) :: rest, lt, C, od, hpw, hx, k + 1 => by
    rw [stepsTrace, step_single_data hsort ty b p lt t0 L C od tq vq rest
      (hx (tq, vq) (List.mem_cons_self _ _))]
    rw [steps_drain hsort ty b p t0 L rest lt tq false hpw.of_cons
      (fun x hxm => List.rel_of_pairwise_cons hpw hxm) k]
    simp

theorem pushAll_single (ty b : Nat) (p t0 : Time) (ht : 0 ≤ t0) :
    ∀ (samples B : List (Time × Int)) (lt L C : Time) (od : Bool),
    List.Pairwise tsLE samples →
    (∀ x ∈ samples, lt ≤ x.1 ∧ L ≤ x.1) →
    B.length + samples.length ≤ b →
    ∃ lt' L',
      samples.foldl (fun rr q => (SampleReader.push rr 0 ty q.1 q.2).1)
        (SampleReader.mk [Stream.mk ty B b p lt od] t0 L C) =
      SampleReader.mk [Stream.mk ty (B ++ samples) b p lt' od] t0 L' C
  | [], B, lt, L, C, od, _, _, _ => ⟨lt, L, by simp⟩
  | (ts, v) :: rest, B, lt, L, C, od, hpw, hx, hlen => by
    obtain ⟨hlt_ts, hL_ts⟩ := hx (ts, v) (List.mem_cons_self _ _)
    have hlt' : lt ≤ ts := hlt_ts
    have hL' : L ≤ ts := hL_ts
    have hstale : ¬ (ts + t0 < L) :=
      not_lt.mpr (le_trans hL' (le_add_of_nonneg_right ht))
    have hlat : (SampleReader.mk [Stream.mk ty B b p lt od] t0 L C).pushLatest ts =
        SampleReader.mk [Stream.mk ty B b p lt od] t0 ts C := by
      rw [SampleReader.pushLatest]
      split
      case isTrue => rfl
      case isFalse h =>
        have hle : L = ts := le_antisymm hL_ts (not_lt.mp h)
        rw [hle]
    have hget : ((SampleReader.mk [Stream.mk ty B b p lt od] t0 L C).pushLatest
        ts).streams[(0 : Int).toNat]? = some (Stream.mk ty B b p lt od) := by
      rw [hlat]
      rfl
    have hpush := @push_ok (SampleReader.mk [Stream.mk ty B b p lt od] t0 L C) 0 ty ts v
      (Stream.mk ty B b p lt od) (by decide) hstale hget rfl
    rw [hlat] at hpush
    have hsp : (Stream.mk ty B b p lt od).push ts v =
        Stream.mk ty (B ++ [(ts, v)]) b p ts od := by
      have hblt : B.length < b := by
        have hlc : ((ts, v) :: rest).length = rest.length + 1 := List.length_cons _ _
        omega
      rw [Stream.push_accepted hlt']
      simp only []
      rw [evict_of_length_lt hblt]
    have hpush2 : (SampleReader.mk [Stream.mk ty B b p lt od] t0 L C).push 0 ty ts v =
        (SampleReader.mk [Stream.mk ty (B ++ [(ts, v)]) b p ts od] t0 ts C,
         PushOutcome.ok) := by
      rw [hpush]
      simp [hsp]
    obtain ⟨lt', L', hrec⟩ := pushAll_single ty b p t0 ht rest (B ++ [(ts, v)]) ts ts C od
      hpw.of_cons
      (fun x hxm => ⟨List.rel_of_pairwise_cons hpw hxm, List.rel_of_pairwise_cons hpw hxm⟩)
      (by
        have hlc : ((ts, v) :: rest).length = rest.length + 1 := List.length_cons _ _
        have hla : (B ++ [(ts, v)]).length = B.length + 1 := by simp
        omega)
    refine ⟨lt', L', ?_⟩
    have hstep : List.foldl (fun rr q => (SampleReader.push rr 0 ty q.1 q.2).1)
        (SampleReader.mk [Stream.mk ty B b p lt od] t0 L C) ((ts, v) :: rest) =
        List.foldl (fun rr q => (SampleReader.push rr 0 ty q.1 q.2).1)
          (SampleReader.mk [Stream.mk ty (B ++ [(ts, v)]) b p ts od] t0 ts C) rest := by
      rw [List.foldl_cons]
      congr 1
      exact congrArg Prod.fst hpush2
    rw [hstep, hrec]
    simp [List.append_assoc]

/-- C8: round-trip on a single stream. With one registered stream of any type
tag, capacity at least the number of samples, any period, a non-negative
timeout, and samples pushed in non-decreasing timestamp order with
non-negative timestamps (so no sample is dropped as stale or late: the "no
timeout expiry" hypothesis), iterated calls to step deliver exactly those
samples to the callback, in order, with the same timestamps and values:
after k steps the callback trace is the first k pushed samples, so n steps
deliver all n samples and further steps deliver nothing more. -/
theorem C8_single_stream_roundtrip
    (sortf : List StreamIndex → List StreamIndex) (hsort : SortSpec sortf)
    (t0 p : Time) (ty b : Nat) (samples : List (Time × Int))
    (ht : 0 ≤ t0)
    (hchain : List.Chain' tsLE samples)
    (hpos : ∀ x ∈ samples, 0 ≤ x.1)
    (hlen : samples.length ≤ b) :
    ∀ k, stepsTrace sortf
        (samples.foldl (fun rr q => (SampleReader.push rr 0 ty q.1 q.2).1)
          (((SampleReader.init t0).registerStream ty b p).1)) k =
      (samples.map (fun q => Emit.mk 0 q.1 q.2)).take k := by
  intro k
  have hpw : List.Pairwise tsLE samples := List.chain'_iff_pairwise.mp hchain
  have hreg : (((SampleReader.init t0)).registerStream ty b p).1 =
      SampleReader.mk [Stream.mk ty [] b p 0 false] t0 0 0 := rfl
  obtain ⟨lt', L', hfold⟩ := pushAll_single ty b p t0 ht samples [] 0 0 0 false hpw
    (fun x hxm => ⟨hpos x hxm, hpos x hxm⟩) (by simpa using hlen)
  rw [hreg, hfold]
  have hdr := steps_drain hsort ty b p t0 L' samples lt' 0 false hpw hpos k
  simpa using hdr

/-- Witness for C8: two samples on one stream of capacity 3; three steps
deliver exactly the two samples in order. -/
theorem C8_single_stream_roundtrip_witness :
    (SortSpec timeSort ∧ (0 : Time) ≤ 2 ∧
      List.Chain' tsLE [(1, 10), (2, 20)] ∧
      ([(1, 10), (2, 20)] : List (Time × Int)).length ≤ 3) ∧
    stepsTrace timeSort
      (([(1, 10), (2, 20)] : List (Time × Int)).foldl
        (fun rr q => (SampleReader.push rr 0 0 q.1 q.2).1)
        (((SampleReader.init 2).registerStream 0 3 0).1)) 3 =
      (([(1, 10), (2, 20)] : List (Time × Int)).map
        (fun q => Emit.mk 0 q.1 q.2)).take 3 :=
  ⟨⟨sortSpec_timeSort, by decide, List.Chain.cons (by decide) List.Chain.nil, by decide⟩,
   C8_single_stream_roundtrip timeSort sortSpec_timeSort 2 0 0 3 [(1, 10), (2, 20)]
     (by decide) (List.Chain.cons (by decide) List.Chain.nil) (by decide) (by decide) 3⟩

end Aggregator
